import Mathlib

/-!
# Verification of the chaeco/logger core

Shallow embedding of the logging engine's core state machines, translated
from the TypeScript sources:

* `AsyncQueue` (src/file/async-queue.ts): bounded batching buffer with
  overflow policy and failure-restoring flush.
* `NodeWriter` (src/file/node-writer.ts): size-based file rotation,
  retention cleanup, retrying append.
* `Logger` admission pipeline (src/core/logger.ts, src/core/logger-base.ts):
  level gate, sampling, fixed-window rate limiting, filter chain, metrics.

External effects (the writer callback, file-system appends, `Math.random`,
`Date.now`, `performance.now`) are passed in as explicit parameters /
oracles, which is the standard shallow embedding of fallible or
nondeterministic calls.
-/

/-- Overflow policy of the async queue (`AsyncOptions.overflowStrategy`). -/
inductive OverflowStrategy
  | drop
  | block
  | overflow
deriving DecidableEq

/-- The async-queue options consulted by `enqueue`/`flush`
(`queueSize` cap, `batchSize`, `overflowStrategy`); `flushInterval`
only arms the timer and plays no role in the per-call semantics. -/
structure AsyncOptions where
  queueSize : Nat
  batchSize : Nat
  overflowStrategy : OverflowStrategy

/-- Mutable state of an `AsyncQueue`: the FIFO buffer of pending formatted
messages and the `isWriting` mutual-exclusion flag. -/
structure QueueState where
  queue : List String
  isWriting : Bool
deriving DecidableEq

namespace AsyncQueue

/-- Outcome of one invocation of the writer callback `onFlush`:
it either resolves or throws. -/
abbrev FlushOutcome := Except String Unit

/-- Whether a call to `flush` actually invokes the writer callback:
the source returns early when `isWriting` is set or the queue is empty. -/
def flushInvokes (s : QueueState) : Bool :=
  !s.isWriting && !s.queue.isEmpty

/-- `AsyncQueue.flush`, with the callback's outcome `r` supplied explicitly.
The source splices up to `batchSize` messages off the head, invokes
`onFlush`; on a throw it unshifts the same messages back onto the head;
`isWriting` is cleared in the `finally` block. -/
def flush (opts : AsyncOptions) (s : QueueState) (r : FlushOutcome) : QueueState :=
  if s.isWriting || s.queue.isEmpty then s
  else
    let messages := s.queue.take opts.batchSize
    let rest := s.queue.drop opts.batchSize
    match r with
    | .ok _ => { queue := rest, isWriting := false }
    | .error _ => { queue := messages ++ rest, isWriting := false }

/-- `flush` against a stream of callback outcomes indexed by invocation
count `k`; an outcome is consumed only when the callback actually runs. -/
def flushCounted (opts : AsyncOptions) (s : QueueState)
    (outcomes : Nat → FlushOutcome) (k : Nat) : QueueState × Nat :=
  if flushInvokes s then (flush opts s (outcomes k), k + 1) else (s, k)

/-- The tail of `AsyncQueue.enqueue` after the overflow loop exits:
push the message, then flush eagerly when the buffer has reached
`batchSize`. -/
def enqueuePush (opts : AsyncOptions) (s : QueueState) (message : String)
    (outcomes : Nat → FlushOutcome) (k : Nat) : QueueState × Nat :=
  let s1 : QueueState := { s with queue := s.queue ++ [message] }
  if opts.batchSize ≤ s1.queue.length then flushCounted opts s1 outcomes k
  else (s1, k)

/-- `AsyncQueue.enqueue`. The source's `while (queue.length >= queueSize)`
loop is given explicit fuel (the `block`/`overflow` arms can in principle
loop while every flush fails); `none` means the fuel ran out inside the
loop. Under `drop` the loop exits on its first check, so any positive
fuel suffices. -/
def enqueue (opts : AsyncOptions) : (fuel : Nat) → QueueState → String →
    (Nat → FlushOutcome) → Nat → Option (QueueState × Nat)
  | 0, _, _, _, _ => none
  | fuel + 1, s, message, outcomes, k =>
    if opts.queueSize ≤ s.queue.length then
      match opts.overflowStrategy with
      | .drop => some (s, k)
      | .block | .overflow =>
        let sk := flushCounted opts s outcomes k
        enqueue opts fuel sk.1 message outcomes sk.2
    else
      some (enqueuePush opts s message outcomes k)

/-- A freshly constructed queue: empty buffer, `isWriting` clear. -/
def initialState : QueueState := { queue := [], isWriting := false }

/-- A sequence of `enqueue` calls threading the outcome stream. Each call
is run with fuel 1; under the `drop` strategy this is exact (the loop
never iterates). -/
def enqueueSeq (opts : AsyncOptions) :
    List String → (Nat → FlushOutcome) → Nat → QueueState → QueueState × Nat
  | [], _, k, s => (s, k)
  | m :: ms, outcomes, k, s =>
    match enqueue opts 1 s m outcomes k with
    | some sk => enqueueSeq opts ms outcomes sk.2 sk.1
    | none => (s, k)

/-- `flush` never grows the buffer: success drops the batch, failure
restores the buffer exactly. -/
theorem flush_length_le (opts : AsyncOptions) (s : QueueState) (r : FlushOutcome) :
    (flush opts s r).queue.length ≤ s.queue.length := by
  unfold flush
  split
  · exact Nat.le_refl _
  · match r with
    | .ok _ =>
      exact List.Sublist.length_le (List.drop_sublist _ _)
    | .error _ =>
      simp [List.take_append_drop]

/-- `flushCounted` never grows the buffer. -/
theorem flushCounted_length_le (opts : AsyncOptions) (s : QueueState)
    (outcomes : Nat → FlushOutcome) (k : Nat) :
    (flushCounted opts s outcomes k).1.queue.length ≤ s.queue.length := by
  unfold flushCounted
  split
  · exact flush_length_le opts s (outcomes k)
  · exact Nat.le_refl _

/-- Under `drop`, a single `enqueue` with any positive fuel returns and
preserves the `queueSize` bound. -/
theorem enqueue_drop_preserves (opts : AsyncOptions)
    (hstrat : opts.overflowStrategy = .drop)
    (fuel : Nat) (hfuel : 1 ≤ fuel) (s : QueueState) (message : String)
    (outcomes : Nat → FlushOutcome) (k : Nat)
    (hlen : s.queue.length ≤ opts.queueSize) :
    ∃ sk, enqueue opts fuel s message outcomes k = some sk ∧
      sk.1.queue.length ≤ opts.queueSize := by
  match fuel, hfuel with
  | fuel + 1, _ =>
    unfold enqueue
    by_cases hfull : opts.queueSize ≤ s.queue.length
    · refine ⟨(s, k), ?_, hlen⟩
      simp [hfull, hstrat]
    · refine ⟨enqueuePush opts s message outcomes k, by simp [hfull], ?_⟩
      have hlt : s.queue.length < opts.queueSize := Nat.lt_of_not_le hfull
      simp only [enqueuePush]
      split
      · calc (flushCounted opts ⟨s.queue ++ [message], s.isWriting⟩ outcomes k).1.queue.length
            ≤ (s.queue ++ [message]).length := flushCounted_length_le ..
          _ = s.queue.length + 1 := by simp
          _ ≤ opts.queueSize := hlt
      · simpa using hlt

/-- Under `drop`, a whole `enqueueSeq` preserves the bound. -/
theorem enqueueSeq_drop_preserves (opts : AsyncOptions)
    (hstrat : opts.overflowStrategy = .drop) :
    ∀ (messages : List String) (outcomes : Nat → FlushOutcome) (k : Nat)
      (s : QueueState), s.queue.length ≤ opts.queueSize →
      (enqueueSeq opts messages outcomes k s).1.queue.length ≤ opts.queueSize := by
  intro messages
  induction messages with
  | nil => intro outcomes k s h; simpa [enqueueSeq] using h
  | cons m ms ih =>
    intro outcomes k s h
    obtain ⟨sk, heq, hle⟩ :=
      enqueue_drop_preserves opts hstrat 1 (Nat.le_refl 1) s m outcomes k h
    simpa [enqueueSeq, heq] using ih outcomes sk.2 sk.1 hle

/-- C1: if the writer callback throws during `flush`, the batch that was
spliced off the head is back on the head of the buffer, in its original
relative order, and the buffer as a whole equals its pre-flush contents —
no message is lost by a failed flush. -/
theorem flush_failure_preserves_buffer (opts : AsyncOptions) (s : QueueState)
    (e : String) (h1 : s.isWriting = false) (h2 : s.queue ≠ []) :
    (flush opts s (.error e)).queue
        = s.queue.take opts.batchSize ++ s.queue.drop opts.batchSize ∧
    (flush opts s (.error e)).queue = s.queue := by
  have hne : s.queue.isEmpty = false := by
    simpa [List.isEmpty_iff] using h2
  constructor
  · simp [flush, h1, hne]
  · simp [flush, h1, hne, List.take_append_drop]

/-- Concrete instance of `flush_failure_preserves_buffer`: a three-message
buffer, batch size 2, failing callback. -/
theorem flush_failure_preserves_buffer_witness :
    ((⟨["a", "b", "c"], false⟩ : QueueState).isWriting = false ∧
      (⟨["a", "b", "c"], false⟩ : QueueState).queue ≠ []) ∧
    ((flush ⟨4, 2, .drop⟩ ⟨["a", "b", "c"], false⟩ (.error "io")).queue
        = (["a", "b", "c"] : List String).take 2 ++ (["a", "b", "c"] : List String).drop 2 ∧
      (flush ⟨4, 2, .drop⟩ ⟨["a", "b", "c"], false⟩ (.error "io")).queue
        = ["a", "b", "c"]) :=
  ⟨⟨rfl, by decide⟩,
    flush_failure_preserves_buffer ⟨4, 2, .drop⟩ ⟨["a", "b", "c"], false⟩ "io" rfl (by decide)⟩

/-- C2: with `overflowStrategy = drop`, an `enqueue` against a full buffer
discards the message and returns immediately with the state unchanged, and
along every sequence of `enqueue` calls from a fresh queue the buffer
length never exceeds `queueSize`, whatever the flush outcomes. -/
theorem enqueue_drop_bounded (opts : AsyncOptions)
    (hstrat : opts.overflowStrategy = .drop) :
    (∀ (fuel : Nat) (s : QueueState) (message : String)
        (outcomes : Nat → FlushOutcome) (k : Nat), 1 ≤ fuel →
        opts.queueSize ≤ s.queue.length →
        enqueue opts fuel s message outcomes k = some (s, k)) ∧
    (∀ (messages : List String) (outcomes : Nat → FlushOutcome),
        (enqueueSeq opts messages outcomes 0 initialState).1.queue.length
          ≤ opts.queueSize) := by
  constructor
  · intro fuel s message outcomes k hfuel hfull
    match fuel, hfuel with
    | fuel + 1, _ => unfold enqueue; simp [hfull, hstrat]
  · intro messages outcomes
    exact enqueueSeq_drop_preserves opts hstrat messages outcomes 0 initialState
      (by simp [initialState])

/-- Concrete instance of `enqueue_drop_bounded`: capacity 2, three
messages enqueued from empty, every flush failing. -/
theorem enqueue_drop_bounded_witness :
    (⟨2, 2, .drop⟩ : AsyncOptions).overflowStrategy = .drop ∧
    (enqueueSeq ⟨2, 2, .drop⟩ ["a", "b", "c"] (fun _ => .error "io") 0
        initialState).1.queue.length ≤ 2 :=
  ⟨rfl, (enqueue_drop_bounded ⟨2, 2, .drop⟩ rfl).2 ["a", "b", "c"] (fun _ => .error "io")⟩

end AsyncQueue

/-- The size/rotation state a `NodeWriter` owns (`currentFilePath` is a
function of the date and `fileIndex`, so only index and size are kept). -/
structure WriterState where
  fileIndex : Nat
  currentFileSize : Nat
deriving DecidableEq

namespace NodeWriter

/-- `NodeWriter.shouldRotateFile`: `currentFileSize >= maxSize`. -/
def shouldRotateFile (maxSize : Nat) (s : WriterState) : Bool :=
  maxSize ≤ s.currentFileSize

/-- `NodeWriter.rotateFile`: advance `fileIndex`, reset `currentFileSize`
(recomputing `currentFilePath` and running retention cleanup are
side effects on the file system, not on this state). -/
def rotateFile (s : WriterState) : WriterState :=
  { fileIndex := s.fileIndex + 1, currentFileSize := 0 }

/-- `NodeWriter.write` on a same-day run (so `checkDateRotation` is a
no-op) with the append succeeding; `bytes` is the byte length of
`message + newline`. Rotation is checked before the append, then the
size counter grows by the appended length. -/
def write (maxSize : Nat) (s : WriterState) (bytes : Nat) : WriterState :=
  let s1 := if shouldRotateFile maxSize s then rotateFile s else s
  { s1 with currentFileSize := s1.currentFileSize + bytes }

/-- `n` one-byte writes in sequence. -/
def writeBytes (maxSize : Nat) : Nat → WriterState → WriterState
  | 0, s => s
  | n + 1, s => writeBytes maxSize n (write maxSize s 1)

/-- Fresh writer on an empty directory: index 0, size 0. -/
def initialWriter : WriterState := { fileIndex := 0, currentFileSize := 0 }

/-- Size/index bookkeeping invariant of the one-byte write loop: the
total number of bytes distributes as `fileIndex * maxSize` rotated-away
bytes plus the current file's size, which stays in `[1, maxSize]`. -/
theorem writeBytes_arith (m : Nat) (hm : 1 ≤ m) :
    ∀ (n : Nat) (s : WriterState), 1 ≤ s.currentFileSize → s.currentFileSize ≤ m →
      (writeBytes m n s).fileIndex * m + (writeBytes m n s).currentFileSize
          = s.fileIndex * m + s.currentFileSize + n ∧
      1 ≤ (writeBytes m n s).currentFileSize ∧
      (writeBytes m n s).currentFileSize ≤ m := by
  intro n
  induction n with
  | zero => intro s h1 h2; exact ⟨by simp [writeBytes], h1, h2⟩
  | succ k ih =>
    intro s h1 h2
    have hstep : writeBytes m (k + 1) s = writeBytes m k (write m s 1) := rfl
    by_cases hrot : m ≤ s.currentFileSize
    · have hsz : s.currentFileSize = m := Nat.le_antisymm h2 hrot
      have hw : write m s 1 = ⟨s.fileIndex + 1, 1⟩ := by
        simp [write, shouldRotateFile, rotateFile, hrot]
      rw [hstep, hw]
      obtain ⟨hsum, hlo, hhi⟩ := ih ⟨s.fileIndex + 1, 1⟩ (Nat.le_refl 1) hm
      refine ⟨?_, hlo, hhi⟩
      rw [hsum, hsz]
      ring
    · have hw : write m s 1 = ⟨s.fileIndex, s.currentFileSize + 1⟩ := by
        simp [write, shouldRotateFile, rotateFile, hrot]
      rw [hstep, hw]
      obtain ⟨hsum, hlo, hhi⟩ := ih ⟨s.fileIndex, s.currentFileSize + 1⟩
        (Nat.le_succ_of_le h1) (Nat.lt_of_not_le hrot)
      refine ⟨?_, hlo, hhi⟩
      rw [hsum]
      ring

/-- The invariant from the fresh writer, for at least one byte. -/
theorem writeBytes_init (m : Nat) (hm : 1 ≤ m) (n : Nat) (hn : 1 ≤ n) :
    (writeBytes m n initialWriter).fileIndex * m
        + (writeBytes m n initialWriter).currentFileSize = n ∧
    1 ≤ (writeBytes m n initialWriter).currentFileSize ∧
    (writeBytes m n initialWriter).currentFileSize ≤ m := by
  match n, hn with
  | k + 1, _ =>
    have hnr : ¬ m ≤ (0 : Nat) := by omega
    have hw : write m initialWriter 1 = ⟨0, 1⟩ := by
      simp [write, shouldRotateFile, rotateFile, initialWriter, hnr]
    have hstep : writeBytes m (k + 1) initialWriter = writeBytes m k ⟨0, 1⟩ := by
      rw [show writeBytes m (k + 1) initialWriter
            = writeBytes m k (write m initialWriter 1) from rfl, hw]
    rw [hstep]
    obtain ⟨hsum, hlo, hhi⟩ := writeBytes_arith m hm k ⟨0, 1⟩ (Nat.le_refl 1) hm
    refine ⟨?_, hlo, hhi⟩
    rw [hsum]
    ring

/-- The file index after `n ≥ 1` one-byte writes is `(n - 1) / maxSize`. -/
theorem writeBytes_fileIndex (m : Nat) (hm : 1 ≤ m) (n : Nat) (hn : 1 ≤ n) :
    (writeBytes m n initialWriter).fileIndex = (n - 1) / m := by
  obtain ⟨hsum, hlo, hhi⟩ := writeBytes_init m hm n hn
  rcases hE : writeBytes m n initialWriter with ⟨idx, sz⟩
  rw [hE] at hsum hlo hhi
  simp only at hsum hlo hhi ⊢
  have hszlt : sz - 1 < m := by omega
  have hn1 : n - 1 = sz - 1 + idx * m := by
    rw [← hsum, Nat.add_sub_assoc hlo, Nat.add_comm]
  rw [hn1, Nat.add_mul_div_right _ _ (by omega : 0 < m), Nat.div_eq_of_lt hszlt,
    Nat.zero_add]

/-- C3 counterexample: with `maxSize = 2`, writing `N = 4 > maxSize` bytes
one byte at a time advances `fileIndex` once, not `floor(N / maxSize) = 2`
times — the claimed formula fails when `maxSize` divides `N`. -/
theorem rotation_floor_counterexample :
    2 < 4 ∧ (writeBytes 2 4 initialWriter).fileIndex = 1 ∧ (4 : Nat) / 2 = 2 ∧
      (writeBytes 2 4 initialWriter).fileIndex ≠ 4 / 2 := by
  decide

/-- C3 amended: for `maxSize ≥ 1` and `n ≥ 1` one-byte writes, `fileIndex`
advances exactly `floor((n-1)/maxSize)` times; this equals
`floor(n/maxSize)` exactly when `maxSize` does not divide `n` (and is
`n/maxSize - 1` when it does). Boundary: after exactly `maxSize` bytes the
file holds `maxSize` bytes and has not rotated; the next byte triggers
the rotation. The rotation condition is `currentFileSize ≥ maxSize`,
checked before appending. -/
theorem rotation_count (m n : Nat) (hm : 1 ≤ m) (hn : 1 ≤ n) :
    (writeBytes m n initialWriter).fileIndex = (n - 1) / m ∧
    (¬ m ∣ n → (writeBytes m n initialWriter).fileIndex = n / m) ∧
    (m ∣ n → (writeBytes m n initialWriter).fileIndex = n / m - 1) ∧
    (writeBytes m m initialWriter).fileIndex = 0 ∧
    (writeBytes m m initialWriter).currentFileSize = m ∧
    (writeBytes m (m + 1) initialWriter).fileIndex = 1 := by
  have hsucc : n / m = (n - 1) / m + if m ∣ n then 1 else 0 := by
    have h : n - 1 + 1 = n := by omega
    rw [← h, Nat.succ_div, h]
  have hboundIdx : (writeBytes m m initialWriter).fileIndex = 0 := by
    rw [writeBytes_fileIndex m hm m hm]
    exact Nat.div_eq_of_lt (by omega)
  have hboundSz : (writeBytes m m initialWriter).currentFileSize = m := by
    obtain ⟨hsum, _, _⟩ := writeBytes_init m hm m hm
    rw [hboundIdx] at hsum
    simpa using hsum
  refine ⟨writeBytes_fileIndex m hm n hn, ?_, ?_, hboundIdx, hboundSz, ?_⟩
  · intro hdvd
    rw [writeBytes_fileIndex m hm n hn, hsucc, if_neg hdvd, Nat.add_zero]
  · intro hdvd
    rw [writeBytes_fileIndex m hm n hn, hsucc, if_pos hdvd, Nat.add_sub_cancel]
  · rw [writeBytes_fileIndex m hm (m + 1) (by omega)]
    simpa using Nat.div_self (by omega : 0 < m)

/-- Concrete instance of `rotation_count`: `maxSize = 2`, five one-byte
writes. -/
theorem rotation_count_witness :
    ((1 : Nat) ≤ 2 ∧ (1 : Nat) ≤ 5) ∧
    ((writeBytes 2 5 initialWriter).fileIndex = (5 - 1) / 2 ∧
      (¬ (2 : Nat) ∣ 5 → (writeBytes 2 5 initialWriter).fileIndex = 5 / 2) ∧
      ((2 : Nat) ∣ 5 → (writeBytes 2 5 initialWriter).fileIndex = 5 / 2 - 1) ∧
      (writeBytes 2 2 initialWriter).fileIndex = 0 ∧
      (writeBytes 2 2 initialWriter).currentFileSize = 2 ∧
      (writeBytes 2 (2 + 1) initialWriter).fileIndex = 1) :=
  ⟨⟨by decide, by decide⟩, rotation_count 2 5 (by decide) (by decide)⟩

/-- Result and observable trace of one `appendToFileWithRetry` run:
the surfaced result, the sleeps performed in order, the number of
`appendFileSync` attempts, the number of `ensureLogDirectory` calls, and
whether `initializeCurrentFile` was re-run after a failure. -/
structure RetryTrace where
  result : Except String Unit
  delays : List Nat
  attemptsMade : Nat
  dirEnsured : Nat
  reinitialized : Bool

/-- The `for (let i = 0; i <= retryCount; i++)` body of
`appendToFileWithRetry`, from iteration `i` with `remaining` iterations
left; `attempt i` is the outcome of the `i`-th `appendFileSync`,
`lastError` the error recorded so far. Each iteration sleeps
`retryDelay * i` when `i > 0`, re-ensures the directory, attempts the
append; on failure it records the error and, on the first iteration only,
re-resolves the current file. When the iterations are exhausted the last
error is thrown. -/
def retryFrom (retryDelay : Nat) (attempt : Nat → Except String Unit)
    (lastError : String) : Nat → Nat → RetryTrace
  | _, 0 =>
    { result := .error lastError, delays := [], attemptsMade := 0,
      dirEnsured := 0, reinitialized := false }
  | i, remaining + 1 =>
    let d := if 0 < i then [retryDelay * i] else []
    match attempt i with
    | .ok _ =>
      { result := .ok (), delays := d, attemptsMade := 1,
        dirEnsured := 1, reinitialized := false }
    | .error e =>
      let t := retryFrom retryDelay attempt e (i + 1) remaining
      { result := t.result, delays := d ++ t.delays,
        attemptsMade := t.attemptsMade + 1, dirEnsured := t.dirEnsured + 1,
        reinitialized := (i = 0) || t.reinitialized }

/-- `NodeWriter.appendToFileWithRetry`: `retryCount + 1` loop iterations
starting at `i = 0`. -/
def appendToFileWithRetry (retryCount retryDelay : Nat)
    (attempt : Nat → Except String Unit) : RetryTrace :=
  retryFrom retryDelay attempt "" 0 (retryCount + 1)

/-- One loop iteration, successful append. -/
theorem retryFrom_step_ok (rd : Nat) (attempt : Nat → Except String Unit)
    (le : String) (i n : Nat) (h : attempt i = .ok ()) :
    retryFrom rd attempt le i (n + 1) =
      ⟨.ok (), if 0 < i then [rd * i] else [], 1, 1, false⟩ := by
  simp [retryFrom, h]

/-- One loop iteration, failing append. -/
theorem retryFrom_step_err (rd : Nat) (attempt : Nat → Except String Unit)
    (le : String) (i n : Nat) (e : String) (h : attempt i = .error e) :
    retryFrom rd attempt le i (n + 1) =
      { result := (retryFrom rd attempt e (i + 1) n).result,
        delays := (if 0 < i then [rd * i] else [])
          ++ (retryFrom rd attempt e (i + 1) n).delays,
        attemptsMade := (retryFrom rd attempt e (i + 1) n).attemptsMade + 1,
        dirEnsured := (retryFrom rd attempt e (i + 1) n).dirEnsured + 1,
        reinitialized := decide (i = 0)
          || (retryFrom rd attempt e (i + 1) n).reinitialized } := by
  simp [retryFrom, h]

/-- Loop lemma, all-fail case, from a positive iteration index. -/
theorem retryFrom_all_fail (rd : Nat) (attempt : Nat → Except String Unit)
    (errs : Nat → String) :
    ∀ (remaining i : Nat) (le : String), 1 ≤ i →
      (∀ k, k ≤ remaining → attempt (i + k) = .error (errs (i + k))) →
      retryFrom rd attempt le i (remaining + 1) =
        ⟨.error (errs (i + remaining)),
         (List.range' i (remaining + 1)).map (fun j => rd * j),
         remaining + 1, remaining + 1, false⟩ := by
  intro remaining
  induction remaining with
  | zero =>
    intro i le hi hfail
    have h0 : attempt i = .error (errs i) := by simpa using hfail 0 (Nat.le_refl 0)
    have hpos : 0 < i := hi
    have hne : ¬ i = 0 := by omega
    rw [retryFrom_step_err rd attempt le i 0 (errs i) h0]
    simp [retryFrom, hpos, hne, List.range'_one]
  | succ r ih =>
    intro i le hi hfail
    have h0 : attempt i = .error (errs i) := by simpa using hfail 0 (Nat.zero_le _)
    have ht := ih (i + 1) (errs i) (by omega)
      (fun k hk => by
        have := hfail (k + 1) (by omega)
        simpa [Nat.add_assoc, Nat.add_comm 1 k] using this)
    have hpos : 0 < i := hi
    have hne : ¬ i = 0 := by omega
    rw [retryFrom_step_err rd attempt le i (r + 1) (errs i) h0, ht]
    simp [hpos, hne, List.range'_succ, Nat.add_assoc, Nat.add_comm 1 r]

/-- Loop lemma, success case, from a positive iteration index:
`j` failures then a success, all within the remaining budget. -/
theorem retryFrom_success (rd : Nat) (attempt : Nat → Except String Unit)
    (errs : Nat → String) :
    ∀ (j i remaining : Nat) (le : String), 1 ≤ i →
      (∀ k, k < j → attempt (i + k) = .error (errs (i + k))) →
      attempt (i + j) = .ok () → j < remaining →
      retryFrom rd attempt le i remaining =
        ⟨.ok (), (List.range' i (j + 1)).map (fun k => rd * k),
         j + 1, j + 1, false⟩ := by
  intro j
  induction j with
  | zero =>
    intro i remaining le hi hfail hok hlt
    match remaining, hlt with
    | r + 1, _ =>
      have h0 : attempt i = .ok () := by simpa using hok
      have hpos : 0 < i := hi
      rw [retryFrom_step_ok rd attempt le i r h0]
      simp [hpos, List.range'_one]
  | succ j ih =>
    intro i remaining le hi hfail hok hlt
    match remaining, hlt with
    | r + 1, _ =>
      have h0 : attempt i = .error (errs i) := by
        simpa using hfail 0 (Nat.succ_pos j)
      have ht := ih (i + 1) r (errs i) (by omega)
        (fun k hk => by
          have := hfail (k + 1) (by omega)
          simpa [Nat.add_assoc, Nat.add_comm 1 k] using this)
        (by simpa [Nat.add_assoc, Nat.add_comm 1 j] using hok)
        (by omega)
      have hpos : 0 < i := hi
      have hne : ¬ i = 0 := by omega
      rw [retryFrom_step_err rd attempt le i r (errs i) h0, ht]
      simp [hpos, hne, List.range'_succ, Nat.add_assoc, Nat.add_comm 1 j]

/-- C6: every attempt re-ensures the directory (`dirEnsured` equals the
attempt count); after the first failure the current file is re-resolved;
retries sleep linearly increasing delays `retryDelay * 1, …`; when all
`retryCount + 1` attempts fail the last error is surfaced to the caller;
a successful attempt returns without error after exactly the failed
attempts before it. -/
theorem appendToFileWithRetry_spec (retryCount retryDelay : Nat)
    (attempt : Nat → Except String Unit) (errs : Nat → String) :
    ((∀ i, i ≤ retryCount → attempt i = .error (errs i)) →
      appendToFileWithRetry retryCount retryDelay attempt =
        ⟨.error (errs retryCount),
         (List.range' 1 retryCount).map (fun j => retryDelay * j),
         retryCount + 1, retryCount + 1, true⟩) ∧
    (∀ j, j ≤ retryCount → (∀ i, i < j → attempt i = .error (errs i)) →
      attempt j = .ok () →
      appendToFileWithRetry retryCount retryDelay attempt =
        ⟨.ok (), (List.range' 1 j).map (fun k => retryDelay * k),
         j + 1, j + 1, decide (0 < j)⟩) := by
  constructor
  · intro hfail
    have h0 : attempt 0 = .error (errs 0) := hfail 0 (Nat.zero_le _)
    match retryCount, hfail with
    | 0, hfail =>
      rw [appendToFileWithRetry, retryFrom_step_err retryDelay attempt "" 0 0 (errs 0) h0]
      simp [retryFrom]
    | r + 1, hfail =>
      have ht := retryFrom_all_fail retryDelay attempt errs r 1 (errs 0)
        (Nat.le_refl 1) (fun k hk => by simpa using hfail (1 + k) (by omega))
      rw [appendToFileWithRetry,
        retryFrom_step_err retryDelay attempt "" 0 (r + 1) (errs 0) h0, ht]
      simp [Nat.add_comm 1 r]
  · intro j hj hfail hok
    match j, hok with
    | 0, hok =>
      rw [appendToFileWithRetry, retryFrom_step_ok retryDelay attempt "" 0 retryCount hok]
      simp
    | j + 1, hok =>
      have h0 : attempt 0 = .error (errs 0) := hfail 0 (Nat.succ_pos j)
      have ht := retryFrom_success retryDelay attempt errs j 1 retryCount (errs 0)
        (Nat.le_refl 1)
        (fun k hk => by simpa using hfail (1 + k) (by omega))
        (by simpa [Nat.add_comm 1 j] using hok)
        (by omega)
      rw [appendToFileWithRetry,
        retryFrom_step_err retryDelay attempt "" 0 retryCount (errs 0) h0, ht]
      simp

/-- Concrete instance of `appendToFileWithRetry_spec`, all-fail side:
`retryCount = 2`, `retryDelay = 100`, every append failing. -/
theorem appendToFileWithRetry_spec_witness :
    (∀ i, i ≤ 2 → (fun _ => (.error "EBUSY" : Except String Unit)) i
        = .error ((fun _ => "EBUSY") i)) ∧
    appendToFileWithRetry 2 100 (fun _ => .error "EBUSY") =
      ⟨.error "EBUSY", (List.range' 1 2).map (fun j => 100 * j), 3, 3, true⟩ :=
  ⟨fun _ _ => rfl,
    (appendToFileWithRetry_spec 2 100 (fun _ => .error "EBUSY")
        (fun _ => "EBUSY")).1 (fun _ _ => rfl)⟩

end NodeWriter

/-- A directory entry as `cleanupOldFiles` sees it: the file name, the
date embedded in the name (the `/(\d{4}-\d{2}-\d{2})/` match converted
to a millisecond timestamp, `none` when the name has no date), and the
filesystem mtime in milliseconds. -/
structure LogFile where
  name : String
  dateMs : Option Nat
  mtimeMs : Nat
deriving DecidableEq

namespace NodeWriter

/-- The sort key (and age basis) of a file: the filename-embedded date
when present, falling back to mtime. -/
def sortKey (f : LogFile) : Nat := f.dateMs.getD f.mtimeMs

/-- The `readdirSync` filter:
`f.startsWith(filename) && (f.endsWith('.log') || f.endsWith('.log.gz'))`,
expressed on the character lists so the definition evaluates in the
kernel. -/
def matchesLogFile (filename : String) (f : LogFile) : Bool :=
  filename.data.isPrefixOf f.name.data
    && (".log".data.isSuffixOf f.name.data
        || ".log.gz".data.isSuffixOf f.name.data)

/-- The matched files sorted newest-first by `sortKey`, as the stable JS
sort with comparator `(a, b) => b.sortKey - a.sortKey` produces. -/
def retentionCandidates (filename : String) (dir : List LogFile) : List LogFile :=
  (dir.filter (matchesLogFile filename)).mergeSort
    (fun a b => decide (sortKey b ≤ sortKey a))

/-- Membership test of the `toDelete` set: the file sits beyond the
`maxFiles` most recent, or its age basis is older than `maxAge` days. -/
def staleOrOverCount (files : List LogFile) (maxFiles maxAgeMs now : Nat)
    (f : LogFile) : Bool :=
  decide (f.name ∈ (files.drop maxFiles).map LogFile.name)
    || decide (maxAgeMs < now - sortKey f)

/-- The delete-set `cleanupOldFiles` computes before unlinking: both
policies collected over the sorted candidates into a single set (each
path listed at most once when directory names are distinct). -/
def cleanupDeleteSet (filename : String) (maxFiles maxAge now : Nat)
    (dir : List LogFile) : List String :=
  let files := retentionCandidates filename dir
  (files.filter
      (staleOrOverCount files maxFiles (maxAge * 24 * 60 * 60 * 1000) now)).map
    LogFile.name

/-- The spec's retention example: files dated now−40d, now−10d, now−1d
(in ms, with `now = 4000000000`); the 40-day-old file deliberately
carries a fresh mtime, so only the embedded date can select it. -/
def sampleRetentionDir : List LogFile :=
  [⟨"app-mid.log", some 3136000000, 3136000000⟩,
   ⟨"app-old.log", some 544000000, 3900000000⟩,
   ⟨"app-new.log", some 3913600000, 3913600000⟩]

unseal List.merge List.mergeSort in
/-- C5: retention cleanup selects by prefix and `.log`/`.log.gz`
extension, orders by the filename-embedded date (falling back to mtime
only when no date is embedded), and deletes exactly the files beyond the
`maxFiles` newest together with those older than `maxAge` days, computed
as one duplicate-free delete-set. On the spec's example (dates
now−40d/now−10d/now−1d, `maxAge = 30`, an old file with a fresh mtime)
only the 40-day-old file is deleted. -/
theorem cleanupOldFiles_spec (filename : String) (maxFiles maxAge now : Nat)
    (dir : List LogFile)
    (hnodup : ((retentionCandidates filename dir).map LogFile.name).Nodup) :
    (retentionCandidates filename dir).Sorted (fun a b => sortKey b ≤ sortKey a) ∧
    (retentionCandidates filename dir).Perm (dir.filter (matchesLogFile filename)) ∧
    (cleanupDeleteSet filename maxFiles maxAge now dir).Nodup ∧
    (∀ f ∈ retentionCandidates filename dir,
      (f.name ∈ cleanupDeleteSet filename maxFiles maxAge now dir ↔
        f ∈ (retentionCandidates filename dir).drop maxFiles ∨
          maxAge * 24 * 60 * 60 * 1000 < now - sortKey f)) ∧
    cleanupDeleteSet "app" 7 30 4000000000 sampleRetentionDir = ["app-old.log"] := by
  refine ⟨?_, ?_, ?_, ?_, by decide⟩
  · have hs := @List.sorted_mergeSort LogFile
      (fun a b => decide (sortKey b ≤ sortKey a))
      (fun a b c h₁ h₂ => by simp_all; omega)
      (fun a b => by simp [Bool.or_eq_true]; omega)
      (dir.filter (matchesLogFile filename))
    simpa [List.Sorted, retentionCandidates] using hs
  · exact List.mergeSort_perm _ _
  · have hsub : (cleanupDeleteSet filename maxFiles maxAge now dir).Sublist
        ((retentionCandidates filename dir).map LogFile.name) := by
      simpa [cleanupDeleteSet] using
        (List.filter_sublist (retentionCandidates filename dir)).map LogFile.name
    exact hnodup.sublist hsub
  · intro f hf
    have hinj := List.inj_on_of_nodup_map hnodup
    constructor
    · intro hmem
      simp only [cleanupDeleteSet, List.mem_map, List.mem_filter] at hmem
      obtain ⟨g, ⟨hgmem, hp⟩, hname⟩ := hmem
      have hgf : g = f := hinj hgmem hf hname
      rw [hgf] at hp
      simp only [staleOrOverCount, Bool.or_eq_true, decide_eq_true_eq] at hp
      rcases hp with hcount | hage
      · left
        obtain ⟨g', hg'mem, hg'name⟩ := List.mem_map.mp hcount
        have hg'f : g' = f :=
          hinj (List.drop_subset _ _ hg'mem) hf hg'name
        exact hg'f ▸ hg'mem
      · right; exact hage
    · intro h
      simp only [cleanupDeleteSet, List.mem_map]
      refine ⟨f, List.mem_filter.mpr ⟨hf, ?_⟩, rfl⟩
      simp only [staleOrOverCount, Bool.or_eq_true, decide_eq_true_eq]
      rcases h with hdrop | hage
      · left; exact List.mem_map.mpr ⟨f, hdrop, rfl⟩
      · right; exact hage

unseal List.merge List.mergeSort in
/-- Concrete instance of `cleanupOldFiles_spec` on the example
directory. -/
theorem cleanupOldFiles_spec_witness :
    ((retentionCandidates "app" sampleRetentionDir).map LogFile.name).Nodup ∧
    (cleanupDeleteSet "app" 7 30 4000000000 sampleRetentionDir).Nodup :=
  ⟨by decide,
    (cleanupOldFiles_spec "app" 7 30 4000000000 sampleRetentionDir (by decide)).2.2.1⟩

end NodeWriter

/-- Log levels (`LogLevel` in src/core/types.ts). -/
inductive LogLevel
  | debug
  | info
  | warn
  | error
  | silent
deriving DecidableEq

/-- `LoggerBase.levelPriority`. -/
def levelPriority : LogLevel → Nat
  | .debug => 0
  | .info => 1
  | .warn => 2
  | .error => 3
  | .silent => 999

/-- Filter combination mode (`FilterOptions.mode`). -/
inductive FilterMode
  | all
  | any
deriving DecidableEq

/-- A `LogEntry` as built by `createLogEntry`; `data` and caller info are
irrelevant to the verified logic and carried as opaque strings. -/
structure LogEntry where
  level : LogLevel
  message : String
  timestamp : String
  name : Option String := none
deriving DecidableEq

/-- A user filter predicate; `.error` models a predicate that throws. -/
abbrev LogFilter := LogEntry → Except String Bool

namespace Logger

/-- The value the filter chain uses for one predicate: its result, with a
throw caught and counted as `true` (fail-open). -/
def evalFilter (f : LogFilter) (entry : LogEntry) : Bool :=
  match f entry with
  | .ok b => b
  | .error _ => true

/-- `Logger.shouldPassFilter`: pass when disabled or no filters; otherwise
map every predicate (throw ↦ true) and combine with `every` for mode
`all`, `some` otherwise. -/
def shouldPassFilter (enabled : Bool) (filters : List LogFilter)
    (mode : FilterMode) (entry : LogEntry) : Bool :=
  if !enabled || filters.isEmpty then true
  else
    let results := filters.map (fun f => evalFilter f entry)
    if mode = FilterMode.all then results.all id else results.any id

/-- C8: with a non-empty filter list and the gate enabled, mode `all`
passes iff every predicate returns true, mode `any` passes iff at least
one does, and a predicate that throws counts as having returned true. -/
theorem shouldPassFilter_modes (filters : List LogFilter) (entry : LogEntry)
    (hne : filters ≠ []) :
    (shouldPassFilter true filters .all entry = true ↔
      ∀ f ∈ filters, evalFilter f entry = true) ∧
    (shouldPassFilter true filters .any entry = true ↔
      ∃ f ∈ filters, evalFilter f entry = true) ∧
    (∀ (f : LogFilter) (e : String), f entry = .error e → evalFilter f entry = true) := by
  refine ⟨?_, ?_, ?_⟩
  · simp [shouldPassFilter, hne, List.all_eq_true]
  · simp [shouldPassFilter, hne, List.any_eq_true]
  · intro f e hf
    simp [evalFilter, hf]

/-- Concrete instance of `shouldPassFilter_modes`: one passing and one
throwing predicate. -/
theorem shouldPassFilter_modes_witness :
    (([fun e => .ok (e.level = LogLevel.error), fun _ => .error "boom"] :
        List LogFilter) ≠ []) ∧
    ((shouldPassFilter true
        [fun e => .ok (e.level = LogLevel.error), fun _ => .error "boom"]
        .all ⟨.error, "m", "t", none⟩ = true ↔
      ∀ f ∈ ([fun e => .ok (e.level = LogLevel.error), fun _ => .error "boom"] :
          List LogFilter), evalFilter f ⟨.error, "m", "t", none⟩ = true) ∧
    (shouldPassFilter true
        [fun e => .ok (e.level = LogLevel.error), fun _ => .error "boom"]
        .any ⟨.error, "m", "t", none⟩ = true ↔
      ∃ f ∈ ([fun e => .ok (e.level = LogLevel.error), fun _ => .error "boom"] :
          List LogFilter), evalFilter f ⟨.error, "m", "t", none⟩ = true) ∧
    (∀ (f : LogFilter) (e : String), f ⟨.error, "m", "t", none⟩ = .error e →
      evalFilter f ⟨.error, "m", "t", none⟩ = true)) :=
  ⟨by simp,
    shouldPassFilter_modes
      [fun e => .ok (e.level = LogLevel.error), fun _ => .error "boom"]
      ⟨.error, "m", "t", none⟩ (by simp)⟩

/-- C10: with the filter gate enabled but an empty filter list, every
entry passes in either mode — the empty-list guard returns `true` before
the mode semantics are consulted, so mode `any` does not vacuously reject
everything. -/
theorem shouldPassFilter_empty_passes (mode : FilterMode) (entry : LogEntry) :
    shouldPassFilter true [] mode entry = true := by
  simp [shouldPassFilter]

/-- Rate-limit configuration (`Required<RateLimitOptions>`). -/
structure RateLimitOptions where
  enabled : Bool
  windowSize : Nat
  maxLogsPerWindow : Nat
  warnOnLimitExceeded : Bool
deriving DecidableEq

/-- The limiter's mutable fields on `LoggerBase`/`Logger`:
`rlWindowStart`, `rlWindowCount`, `rlEventEmittedInWindow`. -/
structure RateLimitState where
  rlWindowStart : Nat
  rlWindowCount : Nat
  rlEventEmittedInWindow : Bool
deriving DecidableEq

/-- `Logger.checkRateLimit` with `Date.now()` passed in: lazily reset the
window when `now - rlWindowStart >= windowSize`; drop (and mark the
once-per-window notification) when the window is at capacity; otherwise
count the admission. Returns the decision and the updated state. -/
def checkRateLimit (rl : RateLimitOptions) (now : Nat) (s : RateLimitState) :
    Bool × RateLimitState :=
  if !rl.enabled then (true, s)
  else
    let s1 := if rl.windowSize ≤ now - s.rlWindowStart then
        { rlWindowStart := now, rlWindowCount := 0, rlEventEmittedInWindow := false }
      else s
    if rl.maxLogsPerWindow ≤ s1.rlWindowCount then
      (false,
        if rl.warnOnLimitExceeded && !s1.rlEventEmittedInWindow then
          { s1 with rlEventEmittedInWindow := true }
        else s1)
    else (true, { s1 with rlWindowCount := s1.rlWindowCount + 1 })

/-- `n` rate-limit checks at the same instant, collecting the decisions. -/
def checkRateLimitSeq (rl : RateLimitOptions) (now : Nat) :
    Nat → RateLimitState → List Bool × RateLimitState
  | 0, s => ([], s)
  | n + 1, s =>
    let bs := checkRateLimit rl now s
    let rest := checkRateLimitSeq rl now n bs.2
    (bs.1 :: rest.1, rest.2)

/-- C4 counterexample: with `maxLogsPerWindow = 0`, a call arriving after
the window has elapsed (`now - windowStart >= windowSize`) still resets
the counter but is dropped, not admitted. -/
theorem checkRateLimit_elapsed_not_admitted :
    (1000 : Nat) ≤ 5000 - 0 ∧
    (checkRateLimit ⟨true, 1000, 0, true⟩ 5000 ⟨0, 7, false⟩).1 = false ∧
    (checkRateLimit ⟨true, 1000, 0, true⟩ 5000 ⟨0, 7, false⟩).2.rlWindowCount = 0 := by
  decide

/-- C4 amended: when the limiter is enabled, a call in the current window
that finds the window at capacity is dropped with the count unchanged (in
particular with `max = 5` the sixth call of a window is dropped); a call
arriving when `now - windowStart >= windowSize` resets the window
(lazily, on this admission check) and, provided `maxLogsPerWindow ≥ 1`,
is admitted, leaving `windowStart = now` and `windowCount = 1`; with
`maxLogsPerWindow = 0` the reset still happens but the call is dropped. -/
theorem checkRateLimit_window (rl : RateLimitOptions) (now : Nat)
    (s : RateLimitState) (henabled : rl.enabled = true) :
    (now - s.rlWindowStart < rl.windowSize →
      rl.maxLogsPerWindow ≤ s.rlWindowCount →
      (checkRateLimit rl now s).1 = false ∧
      (checkRateLimit rl now s).2.rlWindowCount = s.rlWindowCount ∧
      (checkRateLimit rl now s).2.rlWindowStart = s.rlWindowStart) ∧
    (rl.windowSize ≤ now - s.rlWindowStart → 1 ≤ rl.maxLogsPerWindow →
      checkRateLimit rl now s = (true, ⟨now, 1, false⟩)) ∧
    (checkRateLimitSeq ⟨true, 1000, 5, true⟩ 0 6 ⟨0, 0, false⟩).1
      = [true, true, true, true, true, false] := by
  refine ⟨?_, ?_, by decide⟩
  · intro hin hcap
    have hnr : ¬ rl.windowSize ≤ now - s.rlWindowStart := Nat.not_le.mpr hin
    simp only [checkRateLimit, henabled, Bool.not_true, Bool.false_eq_true,
      if_false, if_neg hnr, if_pos hcap]
    split <;> simp
  · intro helapsed hmax
    have hnc : ¬ rl.maxLogsPerWindow ≤ 0 := by omega
    simp [checkRateLimit, henabled, if_pos helapsed, hnc]

/-- Concrete instance of `checkRateLimit_window`: `max = 5`, window of
1000ms, a call 2000ms after the window opened. -/
theorem checkRateLimit_window_witness :
    (⟨true, 1000, 5, true⟩ : RateLimitOptions).enabled = true ∧
    ((1000 : Nat) ≤ 2000 - 0 ∧ (1 : Nat) ≤ 5) ∧
    checkRateLimit ⟨true, 1000, 5, true⟩ 2000 ⟨0, 3, false⟩ = (true, ⟨2000, 1, false⟩) :=
  ⟨rfl, ⟨by decide, by decide⟩,
    (checkRateLimit_window ⟨true, 1000, 5, true⟩ 2000 ⟨0, 3, false⟩ rfl).2.1
      (by decide) (by decide)⟩

/-- The performance counters (`PerformanceMetrics`); the running mean is
kept as a rational, embedding the JS float arithmetic exactly on the
rational values that arise. -/
structure Metrics where
  totalLogs : Nat
  sampledLogs : Nat
  droppedLogs : Nat
  filteredLogs : Nat
  avgProcessingTime : ℚ
  fileWrites : Nat
  fileWriteErrors : Nat
deriving DecidableEq

/-- Sampling configuration (`Required<SamplingOptions>`): `rateByLevel`
holds every level, so the source's `rateByLevel[level] ?? rate` fallback
never fires and `rate` is omitted. -/
structure SamplingOptions where
  enabled : Bool
  rateByLevel : LogLevel → ℚ

/-- Filter configuration (`Required<FilterOptions>`). -/
structure FilterOptions where
  enabled : Bool
  filters : List LogFilter
  mode : FilterMode

/-- The configuration `Logger.log` consults; `hasFileManager` records
whether a `FileManager` was constructed (`writeToFile` returns before its
`fileWrites` increment when there is none). -/
structure LoggerConfig where
  level : LogLevel
  sampling : SamplingOptions
  rateLimit : RateLimitOptions
  filter : FilterOptions
  hasFileManager : Bool

/-- The logger state `log` mutates: metrics, the Welford count
`metricsN`, and the rate-limiter fields. -/
structure LoggerState where
  metrics : Metrics
  metricsN : Nat
  rl : RateLimitState

/-- `Logger.shouldLog`: `levelPriority[level] >= levelPriority[this.level]`. -/
def shouldLog (configLevel level : LogLevel) : Bool :=
  levelPriority configLevel ≤ levelPriority level

/-- `Logger.shouldSample` with the `Math.random()` draw passed in. -/
def shouldSample (sampling : SamplingOptions) (rand : ℚ) (level : LogLevel) : Bool :=
  if !sampling.enabled then true else rand < sampling.rateByLevel level

/-- `Logger.log` past argument parsing, with the nondeterministic inputs
(`Math.random()` draw, `Date.now()`, the measured latency
`performance.now() - start`, and the constructed entry) passed in.
Mirrors the source order: level gate, `totalLogs++`, sampling, rate
limit, filter, console/file writes, then the Welford update
`avg += (elapsed - avg) / ++metricsN`. -/
def log (cfg : LoggerConfig) (s : LoggerState) (level : LogLevel)
    (entry : LogEntry) (rand : ℚ) (now : Nat) (elapsed : ℚ) : LoggerState :=
  if !shouldLog cfg.level level then s
  else
    let m0 := { s.metrics with totalLogs := s.metrics.totalLogs + 1 }
    if !shouldSample cfg.sampling rand level then
      { s with metrics :=
          { m0 with sampledLogs := m0.sampledLogs + 1,
                    droppedLogs := m0.droppedLogs + 1 } }
    else
      let rlRes := checkRateLimit cfg.rateLimit now s.rl
      if !rlRes.1 then
        { s with metrics := { m0 with droppedLogs := m0.droppedLogs + 1 },
                 rl := rlRes.2 }
      else if cfg.filter.enabled
          && !shouldPassFilter cfg.filter.enabled cfg.filter.filters
                cfg.filter.mode entry then
        { s with
            metrics :=
              { m0 with filteredLogs := m0.filteredLogs + 1,
                        droppedLogs := m0.droppedLogs + 1 },
            rl := rlRes.2 }
      else
        let m1 := if cfg.hasFileManager
          then { m0 with fileWrites := m0.fileWrites + 1 } else m0
        { metrics :=
            { m1 with avgProcessingTime :=
                m1.avgProcessingTime
                  + (elapsed - m1.avgProcessingTime) / ((s.metricsN : ℚ) + 1) },
          metricsN := s.metricsN + 1,
          rl := rlRes.2 }

/-- C9: a call below the configured level returns before any pipeline
work: the whole logger state — every metrics counter, the Welford count
and the rate-limit/sampling state — is unchanged. By contrast a
sampled-out call (which passed the level gate) does touch the metrics:
`totalLogs` and its neighbours move. -/
theorem log_level_gated_frame (cfg : LoggerConfig) (s : LoggerState)
    (level : LogLevel) (entry : LogEntry) (rand : ℚ) (now : Nat) (elapsed : ℚ)
    (h : shouldLog cfg.level level = false) :
    log cfg s level entry rand now elapsed = s ∧
    (∀ (level' : LogLevel), shouldLog cfg.level level' = true →
      shouldSample cfg.sampling rand level' = false →
      (log cfg s level' entry rand now elapsed).metrics.totalLogs
        = s.metrics.totalLogs + 1) := by
  constructor
  · simp [log, h]
  · intro level' h1 h2
    simp [log, h1, h2]

/-- Concrete instance of `log_level_gated_frame`: a `debug` call against
an `info`-level logger with sampling enabled at rate 0. -/
theorem log_level_gated_frame_witness :
    shouldLog LogLevel.info LogLevel.debug = false ∧
    (log ⟨.info, ⟨true, fun _ => 0⟩, ⟨false, 1000, 1000, true⟩, ⟨false, [], .all⟩, true⟩
        ⟨⟨0, 0, 0, 0, 0, 0, 0⟩, 0, ⟨0, 0, false⟩⟩ .debug ⟨.debug, "m", "t", none⟩
        0 0 0 = ⟨⟨0, 0, 0, 0, 0, 0, 0⟩, 0, ⟨0, 0, false⟩⟩ ∧
      (∀ (level' : LogLevel), shouldLog LogLevel.info level' = true →
        shouldSample ⟨true, fun _ => 0⟩ 0 level' = false →
        (log ⟨.info, ⟨true, fun _ => 0⟩, ⟨false, 1000, 1000, true⟩, ⟨false, [], .all⟩, true⟩
            ⟨⟨0, 0, 0, 0, 0, 0, 0⟩, 0, ⟨0, 0, false⟩⟩ level' ⟨.debug, "m", "t", none⟩
            0 0 0).metrics.totalLogs = 0 + 1)) :=
  ⟨rfl, log_level_gated_frame _ _ _ _ _ _ _ rfl⟩

/-- C7: past the level gate, a sampling drop bumps `sampledLogs` and
`droppedLogs`, a rate-limit drop bumps `droppedLogs`, a filter drop bumps
`filteredLogs` and `droppedLogs` (each on top of the unconditional
`totalLogs` bump), and an entry passing all four gates bumps `totalLogs`
and folds its latency into the running mean by
`avg += (elapsed - avg) / n` with `n` the incremented Welford count. -/
theorem log_metrics_disposition (cfg : LoggerConfig) (s : LoggerState)
    (level : LogLevel) (entry : LogEntry) (rand : ℚ) (now : Nat) (elapsed : ℚ)
    (hlvl : shouldLog cfg.level level = true) :
    (shouldSample cfg.sampling rand level = false →
      log cfg s level entry rand now elapsed =
        { s with metrics :=
            { s.metrics with
                totalLogs := s.metrics.totalLogs + 1,
                sampledLogs := s.metrics.sampledLogs + 1,
                droppedLogs := s.metrics.droppedLogs + 1 } }) ∧
    (shouldSample cfg.sampling rand level = true →
      (checkRateLimit cfg.rateLimit now s.rl).1 = false →
      log cfg s level entry rand now elapsed =
        { s with
            metrics :=
              { s.metrics with
                  totalLogs := s.metrics.totalLogs + 1,
                  droppedLogs := s.metrics.droppedLogs + 1 },
            rl := (checkRateLimit cfg.rateLimit now s.rl).2 }) ∧
    (shouldSample cfg.sampling rand level = true →
      (checkRateLimit cfg.rateLimit now s.rl).1 = true →
      cfg.filter.enabled = true →
      shouldPassFilter cfg.filter.enabled cfg.filter.filters cfg.filter.mode
          entry = false →
      log cfg s level entry rand now elapsed =
        { s with
            metrics :=
              { s.metrics with
                  totalLogs := s.metrics.totalLogs + 1,
                  filteredLogs := s.metrics.filteredLogs + 1,
                  droppedLogs := s.metrics.droppedLogs + 1 },
            rl := (checkRateLimit cfg.rateLimit now s.rl).2 }) ∧
    (shouldSample cfg.sampling rand level = true →
      (checkRateLimit cfg.rateLimit now s.rl).1 = true →
      (cfg.filter.enabled = false ∨
        shouldPassFilter cfg.filter.enabled cfg.filter.filters cfg.filter.mode
          entry = true) →
      log cfg s level entry rand now elapsed =
        { metrics :=
            { s.metrics with
                totalLogs := s.metrics.totalLogs + 1,
                fileWrites := s.metrics.fileWrites
                  + (if cfg.hasFileManager then 1 else 0),
                avgProcessingTime := s.metrics.avgProcessingTime
                  + (elapsed - s.metrics.avgProcessingTime)
                      / ((s.metricsN : ℚ) + 1) },
          metricsN := s.metricsN + 1,
          rl := (checkRateLimit cfg.rateLimit now s.rl).2 }) := by
  refine ⟨?_, ?_, ?_, ?_⟩
  · intro hsamp
    simp [log, hlvl, hsamp]
  · intro hsamp hrl
    simp [log, hlvl, hsamp, hrl]
  · intro hsamp hrl hfen hfpass
    rw [hfen] at hfpass
    simp [log, hlvl, hsamp, hrl, hfen, hfpass]
  · intro hsamp hrl hfilter
    rcases hfilter with hfen | hfpass
    · rcases hfm : cfg.hasFileManager with _ | _ <;>
        simp [log, hlvl, hsamp, hrl, hfen, hfm]
    · rcases hfm : cfg.hasFileManager with _ | _ <;>
        simp [log, hlvl, hsamp, hrl, hfpass, hfm]

/-- Concrete instance of `log_metrics_disposition`: an `info` call with
sampling disabled, an exhausted rate-limit window. -/
theorem log_metrics_disposition_witness :
    shouldLog LogLevel.info LogLevel.info = true ∧
    (shouldSample ⟨false, fun _ => 1⟩ 0 LogLevel.info = true ∧
      (checkRateLimit ⟨true, 1000, 1, true⟩ 10 ⟨5, 1, false⟩).1 = false) ∧
    log ⟨.info, ⟨false, fun _ => 1⟩, ⟨true, 1000, 1, true⟩, ⟨false, [], .all⟩, true⟩
        ⟨⟨3, 1, 2, 0, 0, 0, 0⟩, 0, ⟨5, 1, false⟩⟩ .info ⟨.info, "m", "t", none⟩
        0 10 0 =
      ⟨⟨3 + 1, 1, 2 + 1, 0, 0, 0, 0⟩, 0,
        (checkRateLimit ⟨true, 1000, 1, true⟩ 10 ⟨5, 1, false⟩).2⟩ :=
  ⟨rfl, ⟨rfl, by decide⟩,
    (log_metrics_disposition
        ⟨.info, ⟨false, fun _ => 1⟩, ⟨true, 1000, 1, true⟩, ⟨false, [], .all⟩, true⟩
        ⟨⟨3, 1, 2, 0, 0, 0, 0⟩, 0, ⟨5, 1, false⟩⟩ .info ⟨.info, "m", "t", none⟩
        0 10 0 rfl).2.1 rfl (by decide)⟩

end Logger
